import Mathlib

/-!
A shallow embedding of the two value-semantic type-erasure containers of this
repository: the small-buffer-optimized (SBO) `Shape` of
`Solutions/2_Cpp_Software_Design/Type_Erasure/TypeErasure_SBO_1.cpp` and the
heap-allocating `Shape` of
`Solutions/2_Cpp_Software_Design/Type_Erasure/TypeErasure_2.cpp`, together
with proofs of the specified contract properties.

Modelling conventions:
* The erased payload is parametric: `S` is the concrete shape type,
  `D` the draw-strategy type, `Z` the serialization-strategy type.  The
  semantics of `DrawStrategy::operator()` and
  `SerializationStrategy::operator()` are passed explicitly as `drawApp` and
  `serApp`; a draw produces an observable effect of type `E` (in the source:
  console output), a serialization produces a `String`.
* The SBO buffer is modelled by what it holds: `some m` when exactly one model
  lives in it, `none` when no model lives in it (the valueless state).
* A virtual dispatch through a destroyed or absent model — undefined behavior
  in the source — is modelled explicitly (an `Option` result of `none`, or the
  `ub` outcome of the lifecycle semantics); a throwing copy constructor is
  modelled by a clone operation returning `none`.
-/

namespace TypeErasure

/-- `Model<ShapeT,DrawStrategy,SerializationStrategy>`: the concrete aggregate
placed inside the erased container.  It owns a copy of the shape and of every
strategy by composition (value semantics), mirroring the members `shape_`,
`drawer_`, `serializer_` of both source variants. -/
structure Model (S D Z : Type) where
  shape_ : S
  drawer_ : D
  serializer_ : Z
deriving DecidableEq, Repr

variable {S D Z E M : Type}

/-- `Model::do_draw`: `drawer_(shape_)` — invokes the stored draw strategy on
the stored shape, passed by const reference (no copy of the shape is made:
the stored value itself is the argument). -/
def Model.do_draw (drawApp : D → S → E) (m : Model S D Z) : E :=
  drawApp m.drawer_ m.shape_

/-- `Model::do_serialize`: `serializer_(shape_)` — invokes the stored
serialization strategy on the stored shape. -/
def Model.do_serialize (serApp : Z → S → String) (m : Model S D Z) : String :=
  serApp m.serializer_ m.shape_

/-- The copy constructor of `Model` (used by both variants' `clone`):
memberwise copy of the shape value and of every strategy's state. -/
def Model.clone (m : Model S D Z) : Model S D Z :=
  { shape_ := m.shape_, drawer_ := m.drawer_, serializer_ := m.serializer_ }

/-- Instrumentation events of the lifecycle semantics: a model construction
(a placement `new` of a `Model`, or `make_unique` constructing one), a model
destruction (`~Concept()` reached through the interface pointer), and a
deallocation call (heap traffic; the inline variant never performs one). -/
inductive Event where
  | modelCtor
  | modelDtor
  | dealloc
deriving DecidableEq, Repr

namespace SBO

/-- `Shape::buffersize` of the SBO variant. -/
def buffersize : Nat := 128

/-- `Shape::alignment` of the SBO variant. -/
def alignment : Nat := 16

/-- The compile-time storage footprint — `sizeof` and `alignof` — of one
concrete `Model<ShapeT,DrawStrategy,SerializationStrategy>` instantiation,
carried explicitly since the Lean types do not fix a machine layout. -/
structure Layout where
  size : Nat
  align : Nat
deriving DecidableEq, Repr

/-- The SBO `Shape`: its inline buffer either holds exactly one live model
(`some m`) or holds no live object (`none`, the valueless state). -/
structure Shape (S D Z : Type) where
  buffer : Option (Model S D Z)
deriving DecidableEq, Repr

/-- `Shape::pimpl`: view the buffer as the internal `Concept` interface.  The
dispatchable model is the one living in the buffer; `none` means no model
lives there, and any dispatch through it is undefined behavior in the
source. -/
def Shape.pimpl (b : Shape S D Z) : Option (Model S D Z) :=
  b.buffer

/-- The templated `Shape` constructor of the SBO variant: the two
`static_assert`s check `sizeof(M) <= buffersize` and
`alignof(M) <= alignment` at compile time, in that order, and only an
instantiation passing both reaches the placement `new` that constructs a
single `Model` in the buffer; a rejected instantiation produces no shape and
writes nothing. -/
def Shape.construct (L : Layout) (shape : S) (drawer : D) (serializer : Z) :
    Except String (Shape S D Z) :=
  if L.size ≤ buffersize then
    if L.align ≤ alignment then
      Except.ok ⟨some { shape_ := shape, drawer_ := drawer, serializer_ := serializer }⟩
    else Except.error "Given type is overaligned"
  else Except.error "Given type is too large"

/-- `Shape::serialize`: `pimpl()->do_serialize()`; `none` when the dispatch
goes through a buffer holding no live model (undefined behavior in the
source). -/
def Shape.serialize (serApp : Z → S → String) (b : Shape S D Z) : Option String :=
  (Shape.pimpl b).map (Model.do_serialize serApp)

/-- The hidden friend `free_draw(Shape const&)` of the SBO variant:
`shape.pimpl()->do_draw()`. -/
def free_draw (drawApp : D → S → E) (b : Shape S D Z) : Option E :=
  (Shape.pimpl b).map (Model.do_draw drawApp)

/-- The SBO copy constructor: `other.pimpl()->clone( pimpl() )` — the source
model copy-constructs an instance of its own concrete type into the
destination's own buffer; `none` when the source holds no live model (a
dispatch through a dead object). -/
def Shape.copyCtor (other : Shape S D Z) : Option (Shape S D Z) :=
  (Shape.pimpl other).map (fun m => ⟨some (Model.clone m)⟩)

/-- The per-box buffer state used by the lifecycle semantics: a live model in
the buffer, the valueless state (model destroyed, box still alive), or a
fully destroyed box. -/
inductive BufState (M : Type) where
  | live (m : M)
  | valueless
  | dead
deriving DecidableEq, Repr

/-- The lifecycle operations of a collection of SBO boxes: construct a new
box from a payload, copy-construct a new box from box `j`, copy-assign box
`j` to box `i` (`shapes[i] = shapes[j]`), destroy box `i`. -/
inductive Op (M : Type) where
  | construct (m : M)
  | copy (j : Nat)
  | assign (i j : Nat)
  | destroy (i : Nat)
deriving DecidableEq, Repr

/-- Result of one lifecycle step: normal completion with the new store and
the instrumentation trace of the step, an exception propagated out of a
throwing model copy (`threw`, with the store left behind by stack
unwinding), or undefined behavior (a virtual dispatch through a dead
object). -/
inductive StepResult (M : Type) where
  | ok (σ : List (BufState M)) (tr : List Event)
  | threw (σ : List (BufState M)) (tr : List Event)
  | ub
deriving DecidableEq, Repr

/-- One lifecycle step of the SBO variant, traced from the source:
`construct` placement-constructs a model in the new box's buffer (the
capacity `static_assert`s have already accepted the instantiation);
`copy` runs `other.pimpl()->clone( pimpl() )` into the new box's buffer —
if the model copy throws, the new box never comes to exist and the store is
unchanged;
`assign` runs `pimpl()->~Concept()` first and only then
`other.pimpl()->clone( pimpl() )`, so the source is read *after* the
destroy — a throwing clone leaves box `i` valueless, and a source that the
destroy itself killed (self-assignment) makes the dispatch undefined;
`destroy` runs `pimpl()->~Concept()` and nothing else: no deallocation call
is made, storage being inline.
`cloneOp` is the model's copy constructor; `none` models a throwing copy. -/
def execOp (cloneOp : M → Option M) : Op M → List (BufState M) → StepResult M
  | Op.construct m, σ => StepResult.ok (σ ++ [BufState.live m]) [Event.modelCtor]
  | Op.copy j, σ =>
      match σ[j]? with
      | some (BufState.live mj) =>
          match cloneOp mj with
          | some mc => StepResult.ok (σ ++ [BufState.live mc]) [Event.modelCtor]
          | none => StepResult.threw σ []
      | _ => StepResult.ub
  | Op.assign i j, σ =>
      match σ[i]? with
      | some (BufState.live _) =>
          let σ1 := σ.set i BufState.valueless
          match σ1[j]? with
          | some (BufState.live mj) =>
              match cloneOp mj with
              | some mc =>
                  StepResult.ok (σ1.set i (BufState.live mc)) [Event.modelDtor, Event.modelCtor]
              | none => StepResult.threw σ1 [Event.modelDtor]
          | _ => StepResult.ub
      | _ => StepResult.ub
  | Op.destroy i, σ =>
      match σ[i]? with
      | some (BufState.live _) => StepResult.ok (σ.set i BufState.dead) [Event.modelDtor]
      | _ => StepResult.ub

/-- Run a list of lifecycle operations from a starting store, collecting the
whole instrumentation trace; `none` as soon as a step throws or hits
undefined behavior (the run is not a clean run). -/
def execRun (cloneOp : M → Option M) : List (Op M) → List (BufState M) →
    Option (List (BufState M) × List Event)
  | [], σ => some (σ, [])
  | op :: ops, σ =>
      match execOp cloneOp op σ with
      | StepResult.ok σ2 tr =>
          (execRun cloneOp ops σ2).map (fun r => (r.1, tr ++ r.2))
      | _ => none

/-- Number of live models in a store. -/
def liveCount (σ : List (BufState M)) : Nat :=
  σ.countP (fun b => match b with | BufState.live _ => true | _ => false)

/-- Number of box-creating operations (constructions and copies) in a run. -/
def creations (ops : List (Op M)) : Nat :=
  ops.countP (fun op => match op with
    | Op.construct _ => true
    | Op.copy _ => true
    | _ => false)

/-- `true` when the run contains no copy-assignment. -/
def noAssign (ops : List (Op M)) : Bool :=
  ops.all (fun op => match op with | Op.assign _ _ => false | _ => true)

/-- Model constructions emitted by one normally completing operation:
one placement construction for a box construction, a copy, or a successful
assignment (whose clone placement-constructs), none for a destruction. -/
def ctorWeight : Op M → Nat
  | Op.destroy _ => 0
  | _ => 1

/-- Boxes created by one operation: one for a construction or a copy, none
otherwise. -/
def creationWeight : Op M → Nat
  | Op.construct _ => 1
  | Op.copy _ => 1
  | _ => 0

/-- A collection of SBO boxes for the independence property: entry `i` is box
`i`'s own inline buffer (no two boxes ever alias the same storage). -/
abbrev Store (S D Z : Type) := List (Option (Model S D Z))

/-- A mutation reachable through box `i`: it rewrites the model stored in box
`i`'s own buffer and touches no other box's storage. -/
def mutate (σ : Store S D Z) (i : Nat) (f : Model S D Z → Model S D Z) :
    Store S D Z :=
  match σ[i]? with
  | some (some m) => σ.set i (some (f m))
  | _ => σ

/-- The observable `serialize()` of box `i` of the collection. -/
def serializeAt (serApp : Z → S → String) (σ : Store S D Z) (i : Nat) :
    Option String :=
  match σ[i]? with
  | some (some m) => some (Model.do_serialize serApp m)
  | _ => none

/-- The observable `free_draw` effect of box `i` of the collection. -/
def drawAt (drawApp : D → S → E) (σ : Store S D Z) (i : Nat) : Option E :=
  match σ[i]? with
  | some (some m) => some (Model.do_draw drawApp m)
  | _ => none

end SBO

namespace Heap

/-- The heap-allocating `Shape` of `TypeErasure_2.cpp`: `pimpl_` is the
exclusive-ownership pointer to the heap-allocated model; `none` models the
null pointer left behind by the defaulted move operations. -/
structure Shape (S D Z : Type) where
  pimpl_ : Option (Model S D Z)
deriving DecidableEq, Repr

/-- The templated constructor of the heap variant:
`pimpl_{ std::make_unique<Model<...>>( shape, drawer, serializer ) }`; no
capacity precondition exists. -/
def Shape.construct (shape : S) (drawer : D) (serializer : Z) : Shape S D Z :=
  ⟨some { shape_ := shape, drawer_ := drawer, serializer_ := serializer }⟩

/-- `Shape::serialize` of the heap variant: `pimpl_->do_serialize()`; on a
moved-from shape this dereferences the null `pimpl_` (`none`, undefined
behavior in the source). -/
def Shape.serialize (serApp : Z → S → String) (b : Shape S D Z) : Option String :=
  b.pimpl_.map (Model.do_serialize serApp)

/-- The hidden friend `free_draw(Shape const&)` of the heap variant:
`shape.pimpl_->do_draw()`; `none` on a null `pimpl_`. -/
def free_draw (drawApp : D → S → E) (b : Shape S D Z) : Option E :=
  b.pimpl_.map (Model.do_draw drawApp)

/-- The heap copy constructor: `pimpl_{ other.pimpl_->clone() }` — a deep
copy into a freshly allocated block; `none` when the source pointer is null
(null dereference). -/
def Shape.copyCtor (other : Shape S D Z) : Option (Shape S D Z) :=
  other.pimpl_.map (fun m => ⟨some (Model.clone m)⟩)

/-- The defaulted move constructor: the `unique_ptr` transfer steals
`other.pimpl_`, leaving the moved-from shape with a null pointer.  Result:
(the newly constructed shape, the moved-from source). -/
def Shape.moveCtor (other : Shape S D Z) : Shape S D Z × Shape S D Z :=
  (⟨other.pimpl_⟩, ⟨none⟩)

/-- The defaulted move assignment: the target takes over `other.pimpl_` (its
own previous model is released by the `unique_ptr`), the moved-from source
is left with a null pointer.  Result: (the target after the assignment, the
moved-from source). -/
def Shape.moveAssign (_target other : Shape S D Z) : Shape S D Z × Shape S D Z :=
  (⟨other.pimpl_⟩, ⟨none⟩)

/-- `~Shape() = default` of the heap variant: the `unique_ptr` member
destroys the owned model and deallocates its block; on a null pointer it
does nothing at all.  Returned: the instrumentation events of the
destruction. -/
def Shape.destroyEvents (b : Shape S D Z) : List Event :=
  match b.pimpl_ with
  | some _ => [Event.modelDtor, Event.dealloc]
  | none => []

/-- Result of the heap variant's copy assignment: normal completion carrying
the target's new pointer, an exception propagated out of the clone carrying
the target's untouched pointer, or undefined behavior (a clone dispatched
through a null source pointer). -/
inductive AssignResult (M : Type) where
  | ok (pimpl_ : Option M)
  | threw (pimpl_ : Option M)
  | ub
deriving DecidableEq, Repr

/-- The copy-and-swap `operator=` of the heap variant:
`Shape tmp( other ); std::swap( pimpl_, tmp.pimpl_ );`.
The clone into the temporary happens before the target is touched, so a
throwing clone propagates with the target exactly as it was; on success the
swap hands the clone to the target and the temporary's destructor releases
the target's previous model.  `cloneOp` is the model's copy constructor;
`none` models a throwing copy. -/
def copyAssign (cloneOp : M → Option M) (target source : Option M) :
    AssignResult M :=
  match source with
  | none => AssignResult.ub
  | some ms =>
      match cloneOp ms with
      | none => AssignResult.threw target
      | some mc => AssignResult.ok (some mc)

/-- The heap of the memory-level model: the sequence of blocks allocated so
far, an address being an index into it.  `std::make_unique` allocates a
fresh block at the end, never reusing a live address. -/
structure Mem (S D Z : Type) where
  blocks : List (Model S D Z)
deriving DecidableEq, Repr

/-- Allocate a fresh block holding `m`; returns the grown heap and the fresh
address. -/
def Mem.alloc (h : Mem S D Z) (m : Model S D Z) : Mem S D Z × Nat :=
  (⟨h.blocks ++ [m]⟩, h.blocks.length)

/-- Copy construction at the memory level: `other.pimpl_->clone()` reads the
source box's block and allocates a fresh block holding the memberwise copy;
`none` when the address holds no block. -/
def cloneAlloc (h : Mem S D Z) (a : Nat) : Option (Mem S D Z × Nat) :=
  (h.blocks[a]?).map (fun m => Mem.alloc h (Model.clone m))

/-- A mutation reachable through the box owning address `a`: it rewrites that
block in place and touches no other block. -/
def writeBlock (h : Mem S D Z) (a : Nat) (f : Model S D Z → Model S D Z) :
    Mem S D Z :=
  match h.blocks[a]? with
  | some m => ⟨h.blocks.set a (f m)⟩
  | none => h

/-- The observable `serialize()` of the box owning address `a`. -/
def serializeAt (serApp : Z → S → String) (h : Mem S D Z) (a : Nat) :
    Option String :=
  (h.blocks[a]?).map (Model.do_serialize serApp)

/-- The observable `free_draw` effect of the box owning address `a`. -/
def drawAt (drawApp : D → S → E) (h : Mem S D Z) (a : Nat) : Option E :=
  (h.blocks[a]?).map (Model.do_draw drawApp)

end Heap

/-! ## Helper lemmas -/

/-- The memberwise copy constructor of `Model` reproduces the source value
exactly: the shape value and every strategy's state are preserved. -/
theorem Model.clone_eq (m : Model S D Z) : Model.clone m = m := rfl

/-- A successful SBO construction places exactly the payload handed in: the
buffer holds one live model owning the shape and both strategies. -/
theorem sbo_construct_ok_buffer {L : SBO.Layout} {s : S} {d : D} {z : Z}
    {b : SBO.Shape S D Z}
    (hb : SBO.Shape.construct L s d z = Except.ok b) :
    b = ⟨some { shape_ := s, drawer_ := d, serializer_ := z }⟩ := by
  unfold SBO.Shape.construct at hb
  split at hb
  · split at hb
    · exact (Except.ok.inj hb).symm
    · exact Except.noConfusion hb
  · exact Except.noConfusion hb

/-- A normally completing lifecycle step never introduces the valueless
state: every slot that was not valueless before the step is not valueless
after it. -/
theorem sbo_execOp_ok_no_new_valueless (cloneOp : M → Option M)
    (op : SBO.Op M) (σ0 σ2 : List (SBO.BufState M)) (tr : List Event) (k : Nat)
    (h : SBO.execOp cloneOp op σ0 = SBO.StepResult.ok σ2 tr)
    (hk : σ0[k]? ≠ some SBO.BufState.valueless) :
    σ2[k]? ≠ some SBO.BufState.valueless := by
  cases op with
  | construct m =>
      simp only [SBO.execOp] at h
      obtain ⟨rfl, -⟩ := SBO.StepResult.ok.inj h
      rcases Nat.lt_or_ge k σ0.length with hlt | hge
      · rw [List.getElem?_append_left hlt]; exact hk
      · rw [List.getElem?_append_right hge]
        intro hc
        rcases Nat.eq_or_lt_of_le hge with heq | hgt
        · rw [← heq, Nat.sub_self] at hc
          exact SBO.BufState.noConfusion (Option.some.inj hc)
        · rw [List.getElem?_eq_none (by simp; omega)] at hc
          exact Option.noConfusion hc
  | copy j =>
      simp only [SBO.execOp] at h
      split at h
      · split at h
        · obtain ⟨rfl, -⟩ := SBO.StepResult.ok.inj h
          rcases Nat.lt_or_ge k σ0.length with hlt | hge
          · rw [List.getElem?_append_left hlt]; exact hk
          · rw [List.getElem?_append_right hge]
            intro hc
            rcases Nat.eq_or_lt_of_le hge with heq | hgt
            · rw [← heq, Nat.sub_self] at hc
              exact SBO.BufState.noConfusion (Option.some.inj hc)
            · rw [List.getElem?_eq_none (by simp; omega)] at hc
              exact Option.noConfusion hc
        · exact SBO.StepResult.noConfusion h
      · exact SBO.StepResult.noConfusion h
  | assign i j =>
      simp only [SBO.execOp] at h
      split at h
      · split at h
        · split at h
          · obtain ⟨rfl, -⟩ := SBO.StepResult.ok.inj h
            rw [List.set_set]
            by_cases hik : i = k
            · subst hik
              intro hc
              rcases Nat.lt_or_ge i σ0.length with hlt | hge
              · rw [List.getElem?_set_self hlt] at hc
                exact SBO.BufState.noConfusion (Option.some.inj hc)
              · rw [List.set_eq_of_length_le (by omega)] at hc
                exact hk hc
            · rw [List.getElem?_set_ne hik]; exact hk
          · exact SBO.StepResult.noConfusion h
        · exact SBO.StepResult.noConfusion h
      · exact SBO.StepResult.noConfusion h
  | destroy i =>
      simp only [SBO.execOp] at h
      split at h
      · obtain ⟨rfl, -⟩ := SBO.StepResult.ok.inj h
        by_cases hik : i = k
        · subst hik
          intro hc
          rcases Nat.lt_or_ge i σ0.length with hlt | hge
          · rw [List.getElem?_set_self hlt] at hc
            exact SBO.BufState.noConfusion (Option.some.inj hc)
          · rw [List.set_eq_of_length_le (by omega)] at hc
            exact hk hc
        · rw [List.getElem?_set_ne hik]; exact hk
      · exact SBO.StepResult.noConfusion h

/-- Characterization of a throwing lifecycle step: only a model copy can
throw, so the step was either a copy construction (store unchanged, no box
created) or a copy assignment whose clone threw after the destroy (target
left valueless). -/
theorem sbo_execOp_threw_char (cloneOp : M → Option M)
    (op : SBO.Op M) (σ0 σ2 : List (SBO.BufState M)) (tr : List Event)
    (h : SBO.execOp cloneOp op σ0 = SBO.StepResult.threw σ2 tr) :
    (∃ j2, op = SBO.Op.copy j2 ∧ σ2 = σ0)
    ∨ (∃ i2 j2, op = SBO.Op.assign i2 j2
        ∧ σ2 = σ0.set i2 SBO.BufState.valueless) := by
  cases op with
  | construct m =>
      simp only [SBO.execOp] at h
      exact SBO.StepResult.noConfusion h
  | copy j =>
      refine Or.inl ⟨j, rfl, ?_⟩
      simp only [SBO.execOp] at h
      split at h
      · split at h
        · exact SBO.StepResult.noConfusion h
        · exact (SBO.StepResult.threw.inj h).1.symm
      · exact SBO.StepResult.noConfusion h
  | assign i j =>
      refine Or.inr ⟨i, j, rfl, ?_⟩
      simp only [SBO.execOp] at h
      split at h
      · split at h
        · split at h
          · exact SBO.StepResult.noConfusion h
          · exact (SBO.StepResult.threw.inj h).1.symm
        · exact SBO.StepResult.noConfusion h
      · exact SBO.StepResult.noConfusion h
  | destroy i =>
      simp only [SBO.execOp] at h
      split at h
      · exact SBO.StepResult.noConfusion h
      · exact SBO.StepResult.noConfusion h

/-- A mutation through one SBO box leaves every other box's `serialize()`
unchanged: the boxes' inline buffers are distinct storage. -/
theorem sbo_serializeAt_mutate_ne (serApp : Z → S → String) (σ : SBO.Store S D Z)
    (i k : Nat) (f : Model S D Z → Model S D Z) (hik : i ≠ k) :
    SBO.serializeAt serApp (SBO.mutate σ i f) k = SBO.serializeAt serApp σ k := by
  unfold SBO.mutate
  split
  · unfold SBO.serializeAt
    rw [List.getElem?_set_ne hik]
  · rfl

/-- A mutation through one SBO box leaves every other box's `free_draw`
effect unchanged. -/
theorem sbo_drawAt_mutate_ne (drawApp : D → S → E) (σ : SBO.Store S D Z)
    (i k : Nat) (f : Model S D Z → Model S D Z) (hik : i ≠ k) :
    SBO.drawAt drawApp (SBO.mutate σ i f) k = SBO.drawAt drawApp σ k := by
  unfold SBO.mutate
  split
  · unfold SBO.drawAt
    rw [List.getElem?_set_ne hik]
  · rfl

/-- A write through one heap block leaves the `serialize()` of a box owning
any other address unchanged. -/
theorem heap_serializeAt_write_ne (serApp : Z → S → String) (h : Heap.Mem S D Z)
    (a k : Nat) (f : Model S D Z → Model S D Z) (hak : a ≠ k) :
    Heap.serializeAt serApp (Heap.writeBlock h a f) k
      = Heap.serializeAt serApp h k := by
  unfold Heap.writeBlock
  split
  · unfold Heap.serializeAt
    show ((h.blocks.set a _)[k]?).map _ = _
    rw [List.getElem?_set_ne hak]
  · rfl

/-- A write through one heap block leaves the `free_draw` effect of a box
owning any other address unchanged. -/
theorem heap_drawAt_write_ne (drawApp : D → S → E) (h : Heap.Mem S D Z)
    (a k : Nat) (f : Model S D Z → Model S D Z) (hak : a ≠ k) :
    Heap.drawAt drawApp (Heap.writeBlock h a f) k = Heap.drawAt drawApp h k := by
  unfold Heap.writeBlock
  split
  · unfold Heap.drawAt
    show ((h.blocks.set a _)[k]?).map _ = _
    rw [List.getElem?_set_ne hak]
  · rfl

/-- Replacing the element at a valid index shifts `countP` by the difference
between the old and the new element's predicate value. -/
theorem countP_set_add {α : Type} (p : α → Bool) (l : List α) :
    ∀ (i : Nat) (a b : α), l[i]? = some a →
      (l.set i b).countP p + (if p a then 1 else 0)
        = l.countP p + (if p b then 1 else 0) := by
  induction l with
  | nil => intro i a b hab; simp at hab
  | cons x xs ih =>
      intro i a b hab
      cases i with
      | zero =>
          have hxa : x = a := by simpa using hab
          subst hxa
          cases hpx : p x <;> cases hpb : p b <;>
            simp [List.countP_cons, hpx, hpb, Nat.add_comm]
      | succ n =>
          have hab2 : xs[n]? = some a := by simpa using hab
          have hrec := ih n a b hab2
          cases hpx : p x <;>
            simp only [List.set_cons_succ, List.countP_cons, hpx] <;> omega

/-- Counting facts for one normally completing lifecycle step of the SBO
variant: no deallocation is ever emitted, the live-model count changes by
exactly the emitted constructions minus destructions, and every
box-creating step emits exactly one model construction. -/
theorem sbo_execOp_ok_counts (cloneOp : M → Option M)
    (op : SBO.Op M) (σ σ2 : List (SBO.BufState M)) (tr : List Event)
    (h : SBO.execOp cloneOp op σ = SBO.StepResult.ok σ2 tr) :
    tr.count Event.dealloc = 0
    ∧ SBO.liveCount σ2 + tr.count Event.modelDtor
        = SBO.liveCount σ + tr.count Event.modelCtor
    ∧ tr.count Event.modelCtor = SBO.ctorWeight op := by
  cases op with
  | construct m =>
      simp only [SBO.execOp] at h
      obtain ⟨rfl, rfl⟩ := SBO.StepResult.ok.inj h
      refine ⟨by decide, ?_, rfl⟩
      simp [SBO.liveCount, List.countP_append, List.countP_cons]
  | copy j =>
      simp only [SBO.execOp] at h
      split at h
      · split at h
        · obtain ⟨rfl, rfl⟩ := SBO.StepResult.ok.inj h
          refine ⟨by decide, ?_, rfl⟩
          simp [SBO.liveCount, List.countP_append, List.countP_cons]
        · exact SBO.StepResult.noConfusion h
      · exact SBO.StepResult.noConfusion h
  | assign i j =>
      simp only [SBO.execOp] at h
      split at h
      · rename_i mi hi
        split at h
        · split at h
          · rename_i mc hclone
            obtain ⟨rfl, rfl⟩ := SBO.StepResult.ok.inj h
            refine ⟨by decide, ?_, rfl⟩
            rw [List.set_set]
            have hcount := countP_set_add
              (fun b => match b with | SBO.BufState.live _ => true | _ => false)
              σ i (SBO.BufState.live mi) (SBO.BufState.live mc) hi
            have hdt : List.count Event.modelDtor [Event.modelDtor, Event.modelCtor] = 1 := by
              decide
            have hct : List.count Event.modelCtor [Event.modelDtor, Event.modelCtor] = 1 := by
              decide
            rw [hdt, hct]
            simp only [SBO.liveCount]
            simp at hcount
            omega
          · exact SBO.StepResult.noConfusion h
        · exact SBO.StepResult.noConfusion h
      · exact SBO.StepResult.noConfusion h
  | destroy i =>
      simp only [SBO.execOp] at h
      split at h
      · rename_i mi hi
        obtain ⟨rfl, rfl⟩ := SBO.StepResult.ok.inj h
        refine ⟨by decide, ?_, rfl⟩
        have hcount := countP_set_add
          (fun b => match b with | SBO.BufState.live _ => true | _ => false)
          σ i (SBO.BufState.live mi) SBO.BufState.dead hi
        have hdt : List.count Event.modelDtor [Event.modelDtor] = 1 := by decide
        have hct : List.count Event.modelCtor [Event.modelDtor] = 0 := by decide
        rw [hdt, hct]
        simp only [SBO.liveCount]
        simp at hcount
        omega
      · exact SBO.StepResult.noConfusion h

/-- `creations` of a run splits off the head operation's creation weight. -/
theorem sbo_creations_cons (op : SBO.Op M) (ops : List (SBO.Op M)) :
    SBO.creations (op :: ops) = SBO.creations ops + SBO.creationWeight op := by
  cases op <;> simp [SBO.creations, SBO.creationWeight, List.countP_cons]

/-- Balance invariant of a clean run: no deallocation appears in the trace,
live models at the end plus emitted destructions equal live models at the
start plus emitted constructions, and (without assignments) the emitted
constructions are exactly the box-creating operations. -/
theorem sbo_execRun_balance (cloneOp : M → Option M) :
    ∀ (ops : List (SBO.Op M)) (σ0 σf : List (SBO.BufState M)) (tr : List Event),
      SBO.execRun cloneOp ops σ0 = some (σf, tr) →
      tr.count Event.dealloc = 0
      ∧ SBO.liveCount σf + tr.count Event.modelDtor
          = SBO.liveCount σ0 + tr.count Event.modelCtor
      ∧ (SBO.noAssign ops = true → tr.count Event.modelCtor = SBO.creations ops) := by
  intro ops
  induction ops with
  | nil =>
      intro σ0 σf tr hrun
      simp only [SBO.execRun, Option.some.injEq, Prod.mk.injEq] at hrun
      obtain ⟨rfl, rfl⟩ := hrun
      exact ⟨rfl, rfl, fun _ => rfl⟩
  | cons op ops ih =>
      intro σ0 σf tr hrun
      simp only [SBO.execRun] at hrun
      split at hrun
      · rename_i σ2 tr1 hstep
        rw [Option.map_eq_some'] at hrun
        obtain ⟨⟨σ3, tr2⟩, hrest, heq⟩ := hrun
        obtain ⟨rfl, rfl⟩ := Prod.mk.inj heq
        obtain ⟨hd1, hbal1, hctor1⟩ := sbo_execOp_ok_counts cloneOp op σ0 σ2 tr1 hstep
        obtain ⟨hd2, hbal2, hctor2⟩ := ih σ2 σ3 tr2 hrest
        refine ⟨?_, ?_, ?_⟩
        · simp [List.count_append, hd1, hd2]
        · simp only [List.count_append]
          omega
        · intro hna
          have hna2 := hna
          unfold SBO.noAssign at hna2
          rw [List.all_cons, Bool.and_eq_true] at hna2
          have hops : tr2.count Event.modelCtor = SBO.creations ops := hctor2 hna2.2
          rw [List.count_append, hctor1, hops, sbo_creations_cons]
          cases op with
          | construct m => simp [SBO.ctorWeight, SBO.creationWeight, Nat.add_comm]
          | copy j => simp [SBO.ctorWeight, SBO.creationWeight, Nat.add_comm]
          | assign i j => exact absurd hna2.1 (by simp)
          | destroy i => simp [SBO.ctorWeight, SBO.creationWeight]
      · exact Option.noConfusion hrun

/-! ## Claim theorems -/

/-- Claim C1: round-trip identity.  For every shape value, draw strategy and
serialization strategy used to construct a `Shape` (either variant),
`serialize()` on the box returns exactly the string the stored serialization
strategy returns when applied directly to the stored shape value, and
`free_draw` on the box produces exactly the effect of applying the stored
draw strategy to the stored shape value; the box adds, removes and
translates nothing. -/
theorem round_trip_identity
    (drawApp : D → S → E) (serApp : Z → S → String)
    (L : SBO.Layout) (s : S) (d : D) (z : Z) (b : SBO.Shape S D Z)
    (hb : SBO.Shape.construct L s d z = Except.ok b) :
    SBO.Shape.serialize serApp b = some (serApp z s)
    ∧ SBO.free_draw drawApp b = some (drawApp d s)
    ∧ Heap.Shape.serialize serApp (Heap.Shape.construct s d z) = some (serApp z s)
    ∧ Heap.free_draw drawApp (Heap.Shape.construct s d z) = some (drawApp d s) := by
  obtain rfl := sbo_construct_ok_buffer hb
  exact ⟨rfl, rfl, rfl, rfl⟩

/-- Witness for C1 at a concrete payload. -/
theorem round_trip_identity_witness :
    SBO.Shape.serialize (fun (z : Nat) (s : Nat) => toString z ++ ":" ++ toString s)
        (⟨some { shape_ := 5, drawer_ := 7, serializer_ := 9 }⟩ : SBO.Shape Nat Nat Nat)
      = some "9:5" :=
  (round_trip_identity (fun (d : Nat) (s : Nat) => [d, s])
    (fun (z : Nat) (s : Nat) => toString z ++ ":" ++ toString s)
    ⟨16, 8⟩ 5 7 9 ⟨some { shape_ := 5, drawer_ := 7, serializer_ := 9 }⟩ rfl).1

/-- Claim C2: capacity enforcement.  An instantiation whose model footprint
exceeds 128 bytes of size or 16 bytes of alignment is rejected by the
`static_assert`s, producing no shape at all (so nothing is ever written to
the buffer); every instantiation within both bounds constructs successfully
and places exactly one live model — holding exactly the given payload — in
the inline buffer. -/
theorem capacity_enforcement (L : SBO.Layout) (s : S) (d : D) (z : Z) :
    (SBO.buffersize < L.size →
        SBO.Shape.construct L s d z = Except.error "Given type is too large")
    ∧ (L.size ≤ SBO.buffersize → SBO.alignment < L.align →
        SBO.Shape.construct L s d z = Except.error "Given type is overaligned")
    ∧ ((∃ b, SBO.Shape.construct L s d z = Except.ok b) ↔
        L.size ≤ SBO.buffersize ∧ L.align ≤ SBO.alignment)
    ∧ (L.size ≤ SBO.buffersize → L.align ≤ SBO.alignment →
        SBO.Shape.construct L s d z =
          Except.ok ⟨some { shape_ := s, drawer_ := d, serializer_ := z }⟩) := by
  refine ⟨?_, ?_, ⟨?_, ?_⟩, ?_⟩
  · intro h
    unfold SBO.Shape.construct
    rw [if_neg (by omega)]
  · intro hs ha
    unfold SBO.Shape.construct
    rw [if_pos hs, if_neg (by omega)]
  · rintro ⟨b, hb⟩
    unfold SBO.Shape.construct at hb
    split at hb
    · split at hb
      · exact ⟨by assumption, by assumption⟩
      · exact Except.noConfusion hb
    · exact Except.noConfusion hb
  · rintro ⟨hs, ha⟩
    exact ⟨_, by unfold SBO.Shape.construct; rw [if_pos hs, if_pos ha]⟩
  · intro hs ha
    unfold SBO.Shape.construct
    rw [if_pos hs, if_pos ha]

/-- Witness for C2: the spec's capacity-failure scenario (a 256-byte model is
rejected) and an in-bounds instantiation (one live model placed). -/
theorem capacity_enforcement_witness :
    SBO.Shape.construct ⟨256, 16⟩ (0 : Nat) (0 : Nat) (0 : Nat)
      = Except.error "Given type is too large"
    ∧ SBO.Shape.construct ⟨128, 16⟩ (0 : Nat) (0 : Nat) (0 : Nat)
      = Except.ok ⟨some { shape_ := 0, drawer_ := 0, serializer_ := 0 }⟩ :=
  ⟨(capacity_enforcement ⟨256, 16⟩ 0 0 0).1 (by decide),
   (capacity_enforcement ⟨128, 16⟩ 0 0 0).2.2.2 (by decide) (by decide)⟩

/-- Claim C3: SBO copy-assignment order and failure state.  On two distinct
live boxes, `shapes[i] = shapes[j]` first destroys the target's model in
place (the buffer is then empty) and then clones the source's model into it;
if the clone throws after the destroy has run, the target is left valueless
(no live model in the buffer) rather than holding its previous value.  And
this is the only way the valueless state is reached: a normally completing
step introduces no valueless slot, and any step that leaves a slot newly
valueless is a copy assignment targeting that very slot whose clone threw. -/
theorem sbo_assignment_valueless (cloneOp : M → Option M)
    (σ : List (SBO.BufState M)) (i j : Nat) (mi mj : M)
    (hi : σ[i]? = some (SBO.BufState.live mi))
    (hj : σ[j]? = some (SBO.BufState.live mj)) (hij : i ≠ j) :
    (∀ mc, cloneOp mj = some mc →
        SBO.execOp cloneOp (SBO.Op.assign i j) σ =
          SBO.StepResult.ok (σ.set i (SBO.BufState.live mc))
            [Event.modelDtor, Event.modelCtor])
    ∧ (cloneOp mj = none →
        SBO.execOp cloneOp (SBO.Op.assign i j) σ =
          SBO.StepResult.threw (σ.set i SBO.BufState.valueless) [Event.modelDtor]
        ∧ (σ.set i SBO.BufState.valueless)[i]? = some SBO.BufState.valueless)
    ∧ (∀ (op : SBO.Op M) (σ0 σ2 : List (SBO.BufState M)) (tr : List Event) (k : Nat),
        (SBO.execOp cloneOp op σ0 = SBO.StepResult.ok σ2 tr
          ∨ SBO.execOp cloneOp op σ0 = SBO.StepResult.threw σ2 tr) →
        σ2[k]? = some SBO.BufState.valueless →
        σ0[k]? ≠ some SBO.BufState.valueless →
        ∃ j2, op = SBO.Op.assign k j2
          ∧ SBO.execOp cloneOp op σ0 = SBO.StepResult.threw σ2 tr) := by
  obtain ⟨hilt, -⟩ := List.getElem?_eq_some_iff.mp hi
  have hj1 : (σ.set i SBO.BufState.valueless)[j]? = some (SBO.BufState.live mj) := by
    rw [List.getElem?_set_ne hij]; exact hj
  refine ⟨?_, ?_, ?_⟩
  · intro mc hc
    simp only [SBO.execOp, hi, hj1, hc, List.set_set]
  · intro hc
    refine ⟨by simp only [SBO.execOp, hi, hj1, hc], ?_⟩
    exact List.getElem?_set_self hilt
  · intro op σ0 σ2 tr k hstep hk2 hk0
    rcases hstep with hok | hthrew
    · exact absurd hk2 (sbo_execOp_ok_no_new_valueless cloneOp op σ0 σ2 tr k hok hk0)
    · rcases sbo_execOp_threw_char cloneOp op σ0 σ2 tr hthrew with ⟨j2, -, rfl⟩ | ⟨i2, j2, rfl, rfl⟩
      · exact absurd hk2 hk0
      · refine ⟨j2, ?_, hthrew⟩
        by_cases hik : i2 = k
        · rw [hik]
        · rw [List.getElem?_set_ne hik] at hk2
          exact absurd hk2 hk0

/-- Witness for C3: a throwing clone during `shapes[0] = shapes[1]` leaves
box 0 valueless. -/
theorem sbo_assignment_valueless_witness :
    SBO.execOp (fun _ => (none : Option Nat)) (SBO.Op.assign 0 1)
        [SBO.BufState.live 0, SBO.BufState.live 1]
      = SBO.StepResult.threw [SBO.BufState.valueless, SBO.BufState.live 1]
          [Event.modelDtor] :=
  ((sbo_assignment_valueless (fun _ => (none : Option Nat))
      [SBO.BufState.live 0, SBO.BufState.live 1] 0 1 0 1
      rfl rfl (by decide)).2.1 rfl).1

/-- Claim C6 counterexample: self-assignment of a live SBO box does not
complete normally.  `operator=` destroys the target's model through
`pimpl()` first and only then dispatches `clone` through `other.pimpl()`;
for `b = b` the two are the same object, so the clone is dispatched through
the just-destroyed model — undefined behavior, not an unchanged box. -/
theorem sbo_self_assignment_counterexample :
    SBO.execOp (fun m => (some m : Option Nat)) (SBO.Op.assign 0 0)
        [SBO.BufState.live 0] = SBO.StepResult.ub := rfl

/-- Claim C6 (amended): for every inline `Shape` holding a live model, the
self-assignment `b = b` first destroys `b`'s model, so the source model is
no longer a live object at the moment its clone operation is invoked; the
dispatch goes through a destroyed object and the step is undefined behavior
(the operator has no self-assignment guard). -/
theorem sbo_self_assignment_ub (cloneOp : M → Option M)
    (σ : List (SBO.BufState M)) (i : Nat) (m : M)
    (h : σ[i]? = some (SBO.BufState.live m)) :
    SBO.execOp cloneOp (SBO.Op.assign i i) σ = SBO.StepResult.ub := by
  obtain ⟨hilt, -⟩ := List.getElem?_eq_some_iff.mp h
  simp only [SBO.execOp, h, List.getElem?_set_self hilt]

/-- Witness for the amended C6. -/
theorem sbo_self_assignment_ub_witness :
    SBO.execOp (fun _ => (none : Option Nat)) (SBO.Op.assign 1 1)
        [SBO.BufState.live 3, SBO.BufState.live 4] = SBO.StepResult.ub :=
  sbo_self_assignment_ub (fun _ => (none : Option Nat))
    [SBO.BufState.live 3, SBO.BufState.live 4] 1 4 rfl

/-- Claim C4: heap-variant copy-assignment atomicity.  `operator=` of the
heap variant uses copy-and-swap: the clone into the temporary runs before
the target is touched, so a throwing clone propagates with the target's
pointer — and hence its subsequent `serialize()` and `free_draw` results —
completely unchanged; on success the target ends up owning the fresh
clone. -/
theorem heap_assignment_strong_guarantee
    (serApp : Z → S → String) (drawApp : D → S → E)
    (cloneOp : Model S D Z → Option (Model S D Z))
    (target other : Heap.Shape S D Z) (ms : Model S D Z)
    (hsrc : other.pimpl_ = some ms) :
    (cloneOp ms = none →
        Heap.copyAssign cloneOp target.pimpl_ other.pimpl_
          = Heap.AssignResult.threw target.pimpl_)
    ∧ (∀ p, Heap.copyAssign cloneOp target.pimpl_ other.pimpl_
          = Heap.AssignResult.threw p →
        p = target.pimpl_
        ∧ Heap.Shape.serialize serApp ⟨p⟩ = Heap.Shape.serialize serApp target
        ∧ Heap.free_draw drawApp ⟨p⟩ = Heap.free_draw drawApp target)
    ∧ (∀ mc, cloneOp ms = some mc →
        Heap.copyAssign cloneOp target.pimpl_ other.pimpl_
          = Heap.AssignResult.ok (some mc)) := by
  rw [hsrc]
  refine ⟨?_, ?_, ?_⟩
  · intro hc
    simp only [Heap.copyAssign, hc]
  · intro p hp
    simp only [Heap.copyAssign] at hp
    split at hp
    · obtain rfl := (Heap.AssignResult.threw.inj hp).symm
      exact ⟨rfl, rfl, rfl⟩
    · exact Heap.AssignResult.noConfusion hp
  · intro mc hc
    simp only [Heap.copyAssign, hc]

/-- Witness for C4: a throwing clone leaves the target pointer untouched. -/
theorem heap_assignment_strong_guarantee_witness :
    Heap.copyAssign (fun _ => none)
        (some ({ shape_ := 1, drawer_ := 2, serializer_ := 3 } : Model Nat Nat Nat))
        (some { shape_ := 4, drawer_ := 5, serializer_ := 6 })
      = Heap.AssignResult.threw
          (some { shape_ := 1, drawer_ := 2, serializer_ := 3 }) :=
  (heap_assignment_strong_guarantee (fun z _ => toString z) (fun d _ => [d])
    (fun _ => none) ⟨some { shape_ := 1, drawer_ := 2, serializer_ := 3 }⟩
    ⟨some { shape_ := 4, drawer_ := 5, serializer_ := 6 }⟩
    { shape_ := 4, drawer_ := 5, serializer_ := 6 } rfl).1 rfl

/-- Claim C10: moved-from heap-variant state.  The defaulted move operations
transfer the internal model pointer, leaving the moved-from shape holding a
null pointer; a subsequent `serialize()`, `free_draw` or copy from the
moved-from shape dereferences that null pointer (`none`), while destruction
(a null `unique_ptr` destroys nothing) and assignment into the moved-from
shape (copy-and-swap never reads the target pointer) remain well behaved —
no other operation is guarded against the empty state. -/
theorem heap_moved_from_null
    (serApp : Z → S → String) (drawApp : D → S → E)
    (b target : Heap.Shape S D Z) (ms : Model S D Z)
    (hb : b.pimpl_ = some ms) :
    (Heap.Shape.moveCtor b).1.pimpl_ = some ms
    ∧ (Heap.Shape.moveCtor b).2.pimpl_ = none
    ∧ (Heap.Shape.moveAssign target b).1.pimpl_ = some ms
    ∧ (Heap.Shape.moveAssign target b).2.pimpl_ = none
    ∧ Heap.Shape.serialize serApp (Heap.Shape.moveCtor b).2 = none
    ∧ Heap.free_draw drawApp (Heap.Shape.moveCtor b).2 = none
    ∧ Heap.Shape.copyCtor (Heap.Shape.moveCtor b).2 = none
    ∧ Heap.Shape.destroyEvents (Heap.Shape.moveCtor b).2 = []
    ∧ (∀ (cloneOp : Model S D Z → Option (Model S D Z)) (mc : Model S D Z),
        cloneOp ms = some mc →
        Heap.copyAssign cloneOp (Heap.Shape.moveCtor b).2.pimpl_
            (Heap.Shape.moveCtor b).1.pimpl_
          = Heap.AssignResult.ok (some mc)) := by
  refine ⟨by rw [Heap.Shape.moveCtor, hb], rfl, by rw [Heap.Shape.moveAssign, hb],
    rfl, rfl, rfl, rfl, rfl, ?_⟩
  intro cloneOp mc hc
  simp only [Heap.Shape.moveCtor, Heap.copyAssign, hb, hc]

/-- Witness for C10 at a concrete moved-from shape. -/
theorem heap_moved_from_null_witness :
    Heap.Shape.serialize (fun (z : Nat) (s : Nat) => toString z ++ ":" ++ toString s)
        (Heap.Shape.moveCtor
          (⟨some { shape_ := 1, drawer_ := 2, serializer_ := 3 }⟩ :
            Heap.Shape Nat Nat Nat)).2
      = none
    ∧ Heap.Shape.destroyEvents
        (Heap.Shape.moveCtor
          (⟨some { shape_ := 1, drawer_ := 2, serializer_ := 3 }⟩ :
            Heap.Shape Nat Nat Nat)).2
      = [] := by
  have h := heap_moved_from_null
    (fun (z : Nat) (s : Nat) => toString z ++ ":" ++ toString s)
    (fun (d : Nat) (s : Nat) => [d, s])
    ⟨some { shape_ := 1, drawer_ := 2, serializer_ := 3 }⟩
    ⟨some { shape_ := 7, drawer_ := 8, serializer_ := 9 }⟩
    { shape_ := 1, drawer_ := 2, serializer_ := 3 } rfl
  exact ⟨h.2.2.2.2.1, h.2.2.2.2.2.2.2.1⟩

/-- Claim C7: contract equivalence of the two variants.  For every payload
whose model fits the inline capacity, the SBO `Shape` and the heap `Shape`
produce identical observable results for construction, copy construction,
`serialize()` and `free_draw`; the variants differ only in storage strategy
and failure modes. -/
theorem variant_contract_equivalence
    (drawApp : D → S → E) (serApp : Z → S → String)
    (L : SBO.Layout) (s : S) (d : D) (z : Z) (b : SBO.Shape S D Z)
    (hb : SBO.Shape.construct L s d z = Except.ok b) :
    SBO.Shape.serialize serApp b
        = Heap.Shape.serialize serApp (Heap.Shape.construct s d z)
    ∧ SBO.free_draw drawApp b = Heap.free_draw drawApp (Heap.Shape.construct s d z)
    ∧ ∃ (bc : SBO.Shape S D Z) (hc : Heap.Shape S D Z),
        SBO.Shape.copyCtor b = some bc
        ∧ Heap.Shape.copyCtor (Heap.Shape.construct s d z) = some hc
        ∧ SBO.Shape.serialize serApp bc = Heap.Shape.serialize serApp hc
        ∧ SBO.free_draw drawApp bc = Heap.free_draw drawApp hc := by
  obtain rfl := sbo_construct_ok_buffer hb
  exact ⟨rfl, rfl, _, _, rfl, rfl, rfl, rfl⟩

/-- Witness for C7 at a concrete payload. -/
theorem variant_contract_equivalence_witness :
    SBO.Shape.serialize (fun (z : Nat) (s : Nat) => toString z ++ ":" ++ toString s)
        (⟨some { shape_ := 5, drawer_ := 7, serializer_ := 9 }⟩ : SBO.Shape Nat Nat Nat)
      = Heap.Shape.serialize (fun (z : Nat) (s : Nat) => toString z ++ ":" ++ toString s)
          (Heap.Shape.construct 5 7 9) :=
  (variant_contract_equivalence (fun (d : Nat) (s : Nat) => [d, s])
    (fun (z : Nat) (s : Nat) => toString z ++ ":" ++ toString s)
    ⟨16, 8⟩ 5 7 9 ⟨some { shape_ := 5, drawer_ := 7, serializer_ := 9 }⟩ rfl).1

/-- Claim C5: copy independence.  A copy — via copy construction or copy
assignment, in either variant — holds an independently-owned copy of the
same concrete model value (shape plus every strategy's state): the SBO copy
lives in the fresh box's own inline buffer, the heap copy in a freshly
allocated block at a new address, and a mutation reachable through either
box never changes the other box's subsequent `serialize()` or `free_draw`
results. -/
theorem copy_independence
    (serApp : Z → S → String) (drawApp : D → S → E)
    (σ : SBO.Store S D Z) (i j : Nat) (m mi : Model S D Z)
    (hj : σ[j]? = some (some m)) (hi : σ[i]? = some (some mi)) (hij : i ≠ j)
    (h : Heap.Mem S D Z) (a : Nat) (mh : Model S D Z)
    (ha : h.blocks[a]? = some mh) :
    ((σ ++ [some (Model.clone m)])[σ.length]? = some (some m)
    ∧ j ≠ σ.length
    ∧ (∀ f, SBO.serializeAt serApp
            (SBO.mutate (σ ++ [some (Model.clone m)]) j f) σ.length
          = SBO.serializeAt serApp (σ ++ [some (Model.clone m)]) σ.length)
    ∧ (∀ f, SBO.drawAt drawApp
            (SBO.mutate (σ ++ [some (Model.clone m)]) j f) σ.length
          = SBO.drawAt drawApp (σ ++ [some (Model.clone m)]) σ.length)
    ∧ (∀ f, SBO.serializeAt serApp
            (SBO.mutate (σ ++ [some (Model.clone m)]) σ.length f) j
          = SBO.serializeAt serApp (σ ++ [some (Model.clone m)]) j)
    ∧ (∀ f, SBO.drawAt drawApp
            (SBO.mutate (σ ++ [some (Model.clone m)]) σ.length f) j
          = SBO.drawAt drawApp (σ ++ [some (Model.clone m)]) j))
    ∧ ((σ.set i (some (Model.clone m)))[i]? = some (some m)
    ∧ (∀ f, SBO.serializeAt serApp
            (SBO.mutate (σ.set i (some (Model.clone m))) j f) i
          = SBO.serializeAt serApp (σ.set i (some (Model.clone m))) i)
    ∧ (∀ f, SBO.serializeAt serApp
            (SBO.mutate (σ.set i (some (Model.clone m))) i f) j
          = SBO.serializeAt serApp (σ.set i (some (Model.clone m))) j))
    ∧ (Heap.cloneAlloc h a = some (⟨h.blocks ++ [mh]⟩, h.blocks.length)
    ∧ a ≠ h.blocks.length
    ∧ (∀ f, Heap.serializeAt serApp
            (Heap.writeBlock ⟨h.blocks ++ [mh]⟩ a f) h.blocks.length
          = Heap.serializeAt serApp (⟨h.blocks ++ [mh]⟩ : Heap.Mem S D Z)
              h.blocks.length)
    ∧ (∀ f, Heap.drawAt drawApp
            (Heap.writeBlock ⟨h.blocks ++ [mh]⟩ a f) h.blocks.length
          = Heap.drawAt drawApp (⟨h.blocks ++ [mh]⟩ : Heap.Mem S D Z)
              h.blocks.length)
    ∧ (∀ f, Heap.serializeAt serApp
            (Heap.writeBlock ⟨h.blocks ++ [mh]⟩ h.blocks.length f) a
          = Heap.serializeAt serApp (⟨h.blocks ++ [mh]⟩ : Heap.Mem S D Z) a)
    ∧ (∀ f, Heap.drawAt drawApp
            (Heap.writeBlock ⟨h.blocks ++ [mh]⟩ h.blocks.length f) a
          = Heap.drawAt drawApp (⟨h.blocks ++ [mh]⟩ : Heap.Mem S D Z) a)) := by
  obtain ⟨hjlt, -⟩ := List.getElem?_eq_some_iff.mp hj
  obtain ⟨hilt, -⟩ := List.getElem?_eq_some_iff.mp hi
  obtain ⟨halt, -⟩ := List.getElem?_eq_some_iff.mp ha
  have hjn : j ≠ σ.length := Nat.ne_of_lt hjlt
  have han : a ≠ h.blocks.length := Nat.ne_of_lt halt
  refine ⟨⟨?_, hjn, ?_, ?_, ?_, ?_⟩, ⟨?_, ?_, ?_⟩, ⟨?_, han, ?_, ?_, ?_, ?_⟩⟩
  · rw [List.getElem?_concat_length, Model.clone_eq]
  · intro f; exact sbo_serializeAt_mutate_ne serApp _ j σ.length f hjn
  · intro f; exact sbo_drawAt_mutate_ne drawApp _ j σ.length f hjn
  · intro f; exact sbo_serializeAt_mutate_ne serApp _ σ.length j f (Ne.symm hjn)
  · intro f; exact sbo_drawAt_mutate_ne drawApp _ σ.length j f (Ne.symm hjn)
  · rw [List.getElem?_set_self hilt, Model.clone_eq]
  · intro f; exact sbo_serializeAt_mutate_ne serApp _ j i f (Ne.symm hij)
  · intro f; exact sbo_serializeAt_mutate_ne serApp _ i j f hij
  · simp only [Heap.cloneAlloc, ha, Heap.Mem.alloc, Model.clone_eq]
    rfl
  · intro f; exact heap_serializeAt_write_ne serApp _ a h.blocks.length f han
  · intro f; exact heap_drawAt_write_ne drawApp _ a h.blocks.length f han
  · intro f; exact heap_serializeAt_write_ne serApp _ h.blocks.length a f (Ne.symm han)
  · intro f; exact heap_drawAt_write_ne drawApp _ h.blocks.length a f (Ne.symm han)

/-- Witness for C5 at concrete boxes: the copy holds an equal model at a
fresh index, and so does the fresh heap block. -/
theorem copy_independence_witness :
    (([some { shape_ := 10, drawer_ := 20, serializer_ := 30 },
        some { shape_ := 1, drawer_ := 2, serializer_ := 3 }] ++
        [some (Model.clone { shape_ := 1, drawer_ := 2, serializer_ := 3 })] :
        SBO.Store Nat Nat Nat)[2]?
      = some (some { shape_ := 1, drawer_ := 2, serializer_ := 3 }))
    ∧ Heap.cloneAlloc
        (⟨[{ shape_ := 4, drawer_ := 5, serializer_ := 6 }]⟩ : Heap.Mem Nat Nat Nat) 0
      = some (⟨[{ shape_ := 4, drawer_ := 5, serializer_ := 6 },
          { shape_ := 4, drawer_ := 5, serializer_ := 6 }]⟩, 1) := by
  have hthm := copy_independence
    (fun (z : Nat) (s : Nat) => toString z ++ ":" ++ toString s)
    (fun (d : Nat) (s : Nat) => [d, s])
    [some { shape_ := 10, drawer_ := 20, serializer_ := 30 },
     some { shape_ := 1, drawer_ := 2, serializer_ := 3 }]
    0 1 { shape_ := 1, drawer_ := 2, serializer_ := 3 }
    { shape_ := 10, drawer_ := 20, serializer_ := 30 }
    rfl rfl (by decide)
    ⟨[{ shape_ := 4, drawer_ := 5, serializer_ := 6 }]⟩ 0
    { shape_ := 4, drawer_ := 5, serializer_ := 6 } rfl
  exact ⟨hthm.1.1, hthm.2.2.1⟩

/-- Claim C8: balanced construction/destruction.  Destroying an inline
`Shape` invokes the stored model's destructor exactly once through the
interface pointer and makes no deallocation call; and over any clean
(assignment-free) run that constructs K boxes — directly or by copying —
and ends with every box destroyed, the model type undergoes exactly K
constructions and exactly K destructions, with zero deallocations. -/
theorem balanced_lifecycle (cloneOp : M → Option M)
    (ops : List (SBO.Op M)) (σf : List (SBO.BufState M)) (tr : List Event)
    (hrun : SBO.execRun cloneOp ops [] = some (σf, tr))
    (hna : SBO.noAssign ops = true)
    (hdead : ∀ b ∈ σf, b = SBO.BufState.dead) :
    (∀ (i : Nat) (σ σ2 : List (SBO.BufState M)) (tr2 : List Event),
        SBO.execOp cloneOp (SBO.Op.destroy i) σ = SBO.StepResult.ok σ2 tr2 →
        tr2 = [Event.modelDtor])
    ∧ tr.count Event.modelCtor = SBO.creations ops
    ∧ tr.count Event.modelDtor = SBO.creations ops
    ∧ tr.count Event.dealloc = 0 := by
  obtain ⟨hd0, hbal, hctor⟩ := sbo_execRun_balance cloneOp ops [] σf tr hrun
  have hctor2 := hctor hna
  have hlf : SBO.liveCount σf = 0 := by
    simp only [SBO.liveCount, List.countP_eq_zero]
    intro b hb
    rw [hdead b hb]
    simp
  have hl0 : SBO.liveCount ([] : List (SBO.BufState M)) = 0 := rfl
  refine ⟨?_, hctor2, by omega, hd0⟩
  intro i σ σ2 tr2 hstep
  simp only [SBO.execOp] at hstep
  split at hstep
  · exact ((SBO.StepResult.ok.inj hstep).2).symm
  · exact SBO.StepResult.noConfusion hstep

/-- Witness for C8: constructing a box, copying it, and destroying both
yields exactly two model constructions, two destructions and no
deallocation. -/
theorem balanced_lifecycle_witness :
    ([Event.modelCtor, Event.modelCtor,
        Event.modelDtor, Event.modelDtor].count Event.modelCtor
      = SBO.creations [SBO.Op.construct (0 : Nat), SBO.Op.copy 0,
          SBO.Op.destroy 0, SBO.Op.destroy 1])
    ∧ ([Event.modelCtor, Event.modelCtor,
          Event.modelDtor, Event.modelDtor].count Event.modelDtor
      = SBO.creations [SBO.Op.construct (0 : Nat), SBO.Op.copy 0,
          SBO.Op.destroy 0, SBO.Op.destroy 1])
    ∧ [Event.modelCtor, Event.modelCtor,
        Event.modelDtor, Event.modelDtor].count Event.dealloc = 0 := by
  have hthm := balanced_lifecycle (fun m => (some m : Option Nat))
    [SBO.Op.construct 0, SBO.Op.copy 0, SBO.Op.destroy 0, SBO.Op.destroy 1]
    [SBO.BufState.dead, SBO.BufState.dead]
    [Event.modelCtor, Event.modelCtor, Event.modelDtor, Event.modelDtor]
    rfl (by decide) (by decide)
  exact ⟨hthm.2.1, hthm.2.2.1, hthm.2.2.2⟩

end TypeErasure
